import Mathlib

/-!
Verification of the audio buffer transformation and serialization engine of
the waqas-studio repository, against its natural-language specification.

The serializer `bufferToWave` (src/App.tsx), the MP3 quantization loop of the
converter, the silence-removal / normalization / speed-change pipeline of the
audio toolkit (src/components/AudioToolkit.tsx) and the two merge entry points
(Merger.handleMerge and ClipList.handleMergeSelected) are embedded shallowly:
JavaScript numbers are modelled exactly by rationals (plus explicit NaN and
infinities where the serializer can meet them), channel data by lists, and the
produced WAV byte stream by a list of byte values.
-/

namespace WaqasStudio

/-- Model of a JavaScript number as it can be stored in a Web Audio channel
array: a finite value (modelled exactly as a rational) or one of the
non-finite IEEE values NaN, plus infinity, minus infinity. -/
inductive JSFloat where
  | fin (q : ℚ)
  | nan
  | inf
  | negInf
deriving DecidableEq, Repr

/-- Model of the JavaScript expression `v || 0` applied to an optional channel
read (`channels[i][offset] || 0` in `bufferToWave`): an out-of-bounds read
gives `undefined`, and `undefined`, `NaN` and `0` are falsy, so those cases
yield `0`; any other value passes through. -/
def jsOrZero : Option JSFloat → JSFloat
  | some (.fin q) => .fin q
  | some .nan => .fin 0
  | some .inf => .inf
  | some .negInf => .negInf
  | none => .fin 0

/-- Model of `Math.min` on JavaScript numbers: NaN propagates, otherwise the
usual minimum with the infinities absorbing/neutral. -/
def jsMin : JSFloat → JSFloat → JSFloat
  | .nan, _ => .nan
  | _, .nan => .nan
  | .negInf, _ => .negInf
  | _, .negInf => .negInf
  | .inf, b => b
  | a, .inf => a
  | .fin a, .fin b => .fin (min a b)

/-- Model of `Math.max` on JavaScript numbers: NaN propagates, otherwise the
usual maximum with the infinities absorbing/neutral. -/
def jsMax : JSFloat → JSFloat → JSFloat
  | .nan, _ => .nan
  | _, .nan => .nan
  | .inf, _ => .inf
  | _, .inf => .inf
  | .negInf, b => b
  | a, .negInf => a
  | .fin a, .fin b => .fin (max a b)

/-- Truncation toward zero of a rational, as performed by the JavaScript
`| 0` coercion (ToInt32) and by assignment into an `Int16Array`, on values
whose magnitude the callers keep below 2^31. -/
def truncQ (q : ℚ) : ℤ := if 0 ≤ q then ⌊q⌋ else ⌈q⌉

/-- Clamp of a finite sample to [-1, 1]:
`Math.max(-1, Math.min(1, x))` on finite inputs. -/
def clampQ (q : ℚ) : ℚ := max (-1) (min 1 q)

/-- Per-sample quantization of `bufferToWave` (src/App.tsx line 65-66):
`sample = Math.max(-1, Math.min(1, v)); sample = (0.5 + sample < 0 ?
sample * 32768 : sample * 32767) | 0`.  Note that the JavaScript condition
parses as `(0.5 + sample) < 0`, i.e. it selects the 32768 branch exactly when
the clamped sample is below `-0.5`.  The non-finite arms record the JavaScript
results on those values (`NaN | 0`, `Infinity | 0` and `(-Infinity) | 0` are
all `0`); after the clamp they are unreachable except for NaN. -/
def quantizeSample (x : JSFloat) : ℤ :=
  match jsMax (.fin (-1)) (jsMin (.fin 1) x) with
  | .fin s => if (1 : ℚ)/2 + s < 0 then truncQ (s * 32768) else truncQ (s * 32767)
  | .nan => 0
  | .inf => 0
  | .negInf => 0

/-- Modelled from the spec (section 4.2 wording, for comparison with the
code): clamp the float sample to [-1,1]; if the clamped value is negative,
scale by 32768, else scale by 32767; truncate toward zero. -/
def specQuantize (q : ℚ) : ℤ :=
  if clampQ q < 0 then truncQ (clampQ q * 32768) else truncQ (clampQ q * 32767)

/-- Wrap an integer into a signed 16-bit value, as the `Int16Array` element
conversion and `DataView.setInt16` do. -/
def toInt16 (z : ℤ) : ℤ := (z + 32768) % 65536 - 32768

/-- Per-sample quantization of the MP3 encoding path of the converter
(`Converter.handleConvert`): `Math.max(-1, Math.min(1, x)) * 32767` assigned
into an `Int16Array` (truncation toward zero, then 16-bit wrap). -/
def mp3Quantize (q : ℚ) : ℤ := toInt16 (truncQ (clampQ q * 32767))

/-- Model of a Web Audio `AudioBuffer` as consumed by the serializer: the
per-channel sample arrays and the sample rate.  `numberOfChannels` is the
length of `channels`, and `getChannelData i` is the i-th entry. -/
structure WaveBuf where
  channels : List (List JSFloat)
  sampleRate : Nat
deriving DecidableEq, Repr

/-- The sample value `bufferToWave` feeds into quantization for channel `i`
and frame `offset`: `channels[i][offset] || 0`. -/
def sampleAt (b : WaveBuf) (i off : Nat) : JSFloat :=
  jsOrZero ((b.channels.getD i []).get? off)

/-- Little-endian bytes of a 16-bit unsigned write (`setUint16`). -/
def u16LE (n : Nat) : List Nat := [n % 256, n / 256 % 256]

/-- Little-endian bytes of a 32-bit unsigned write (`setUint32`). -/
def u32LE (n : Nat) : List Nat :=
  [n % 256, n / 256 % 256, n / 65536 % 256, n / 16777216 % 256]

/-- Little-endian bytes of a 16-bit signed write (`setInt16`): two's
complement wrap, then the two bytes little-endian. -/
def int16LE (z : ℤ) : List Nat := u16LE (z % 65536).toNat

/-- The byte stream produced by `bufferToWave (abuffer, len)` (src/App.tsx):
the 44 header bytes written by the sequence of `setUint32`/`setUint16` calls,
followed by the interleaving loop, which for each frame offset in order writes
the quantized sample of every channel in order. -/
def bufferToWave (b : WaveBuf) (len : Nat) : List Nat :=
  u32LE 0x46464952 ++
  u32LE (len * b.channels.length * 2 + 36) ++
  u32LE 0x45564157 ++
  u32LE 0x20746d66 ++
  u32LE 16 ++
  u16LE 1 ++
  u16LE b.channels.length ++
  u32LE b.sampleRate ++
  u32LE (b.sampleRate * 2 * b.channels.length) ++
  u16LE (b.channels.length * 2) ++
  u16LE 16 ++
  u32LE 0x61746164 ++
  u32LE (len * b.channels.length * 2) ++
  (List.range len).flatMap (fun off =>
    (List.range b.channels.length).flatMap (fun i =>
      int16LE (quantizeSample (sampleAt b i off))))

/-- Modelled from the spec (section 4.2 / claim C2 wording): the canonical
44-byte-header PCM WAV layout, written with explicit ASCII tags — `RIFF`,
chunk size `36 + dataBytes`, `WAVE`, `fmt ` of size 16 with audioFormat 1,
channel count, sample rate, byte rate `r*c*2`, block align `c*2`, 16 bits per
sample, then `data` of `n*c*2` bytes, all multi-byte integers little-endian,
followed by the samples interleaved channel-minor. -/
def wavSpecBytes (b : WaveBuf) (n : Nat) : List Nat :=
  [82, 73, 70, 70] ++
  u32LE (36 + n * b.channels.length * 2) ++
  [87, 65, 86, 69] ++
  [102, 109, 116, 32] ++
  u32LE 16 ++
  u16LE 1 ++
  u16LE b.channels.length ++
  u32LE b.sampleRate ++
  u32LE (b.sampleRate * b.channels.length * 2) ++
  u16LE (b.channels.length * 2) ++
  u16LE 16 ++
  [100, 97, 116, 97] ++
  u32LE (n * b.channels.length * 2) ++
  (List.range n).flatMap (fun off =>
    (List.range b.channels.length).flatMap (fun i =>
      int16LE (quantizeSample (sampleAt b i off))))

theorem quantizeSample_fin (q : ℚ) :
    quantizeSample (.fin q) =
      if (1 : ℚ)/2 + clampQ q < 0 then truncQ (clampQ q * 32768)
      else truncQ (clampQ q * 32767) := rfl

/-- Claim C2: for every buffer with channelCount c, sampleRate r and
frameCount n, `bufferToWave` emits exactly the canonical 44-byte header —
RIFF with chunk size 36 + n*c*2, WAVE, a 16-byte fmt sub-chunk with
audioFormat 1, channel count c, sample rate r, byteRate r*c*2, blockAlign
c*2, bitsPerSample 16, then data of size n*c*2, all little-endian — followed
by the samples interleaved channel-minor. -/
theorem bufferToWave_canonical_layout (b : WaveBuf) (n : Nat) :
    bufferToWave b n = wavSpecBytes b n := by
  unfold bufferToWave wavSpecBytes
  rw [show u32LE 0x46464952 = [82, 73, 70, 70] from by decide]
  rw [show u32LE 0x45564157 = [87, 65, 86, 69] from by decide]
  rw [show u32LE 0x20746d66 = [102, 109, 116, 32] from by decide]
  rw [show u32LE 0x61746164 = [100, 97, 116, 97] from by decide]
  rw [Nat.add_comm (n * b.channels.length * 2) 36]
  rw [Nat.mul_right_comm b.sampleRate 2 b.channels.length]

theorem neg_one_le_clampQ (q : ℚ) : -1 ≤ clampQ q := le_max_left _ _

theorem clampQ_le_one (q : ℚ) : clampQ q ≤ 1 :=
  max_le (by norm_num) (min_le_left _ _)

theorem truncQ_mono {a b : ℚ} (h : a ≤ b) : truncQ a ≤ truncQ b := by
  unfold truncQ
  by_cases ha : 0 ≤ a
  · rw [if_pos ha, if_pos (le_trans ha h)]
    exact Int.floor_mono h
  · rw [if_neg ha]
    by_cases hb : 0 ≤ b
    · rw [if_pos hb]
      calc ⌈a⌉ ≤ 0 := Int.ceil_le.mpr (by exact_mod_cast le_of_not_le ha)
        _ ≤ ⌊b⌋ := Int.floor_nonneg.mpr hb
    · rw [if_neg hb]
      exact Int.ceil_mono h

theorem truncQ_intCast (z : ℤ) : truncQ (z : ℚ) = z := by
  unfold truncQ
  by_cases h : (0 : ℚ) ≤ (z : ℚ)
  · rw [if_pos h, Int.floor_intCast]
  · rw [if_neg h, Int.ceil_intCast]

/-- Claim C1, evaluation at the failing input: at the stored sample -1/4 —
whose clamped value -1/4 is negative — the serializer writes -8191, because
the branch test in the code parses as `(0.5 + sample) < 0`, i.e.
`sample < -0.5`, so -1/4 takes the 32767 branch; the specified rule (negative
clamped values scale by 32768, truncated toward zero) demands -8192. -/
theorem wav_quantize_neg_quarter :
    quantizeSample (.fin (-(1/4))) = -8191 ∧ specQuantize (-(1/4)) = -8192 ∧
      (-8191 : ℤ) ≠ -8192 := by
  have hc : clampQ (-(1/4)) = -(1/4) := by
    unfold clampQ
    rw [min_eq_right (by norm_num), max_eq_right (by norm_num)]
  refine ⟨?_, ?_, by decide⟩
  · rw [quantizeSample_fin, hc, if_neg (by norm_num)]
    unfold truncQ
    rw [if_neg (by norm_num)]
    refine Int.ceil_eq_iff.mpr ?_
    constructor <;> push_cast <;> norm_num
  · unfold specQuantize
    rw [hc, if_pos (by norm_num)]
    rw [show (-(1/4) : ℚ) * 32768 = ((-8192 : ℤ) : ℚ) by push_cast; ring]
    exact truncQ_intCast _

theorem truncQ_scale_bounds {q : ℚ} (h1 : -1 ≤ q) (h2 : q ≤ 1) :
    -32767 ≤ truncQ (q * 32767) ∧ truncQ (q * 32767) ≤ 32767 := by
  constructor
  · have h := truncQ_mono (show ((-32767 : ℤ) : ℚ) ≤ q * 32767 by push_cast; nlinarith)
    rwa [truncQ_intCast] at h
  · have h := truncQ_mono (show q * 32767 ≤ ((32767 : ℤ) : ℚ) by push_cast; nlinarith)
    rwa [truncQ_intCast] at h

theorem toInt16_eq_self {z : ℤ} (h1 : -32768 ≤ z) (h2 : z ≤ 32767) :
    toInt16 z = z := by
  unfold toInt16
  omega

/-- Claim C4 (amended): the MP3 encoding path quantizes every sample by
clamping to [-1,1] and scaling by 32767 — for negative and nonnegative
clamped values alike — truncating toward zero (the 16-bit wrap never
fires); it agrees with the WAV serializer's quantization whenever the
clamped value is at least -0.5, and with the spec's section 4.2 rule
whenever the clamped value is nonnegative. -/
theorem mp3_quantize_rule (q : ℚ) :
    mp3Quantize q = truncQ (clampQ q * 32767) ∧
    (-(1/2) ≤ clampQ q → mp3Quantize q = quantizeSample (.fin q)) ∧
    (0 ≤ clampQ q → mp3Quantize q = specQuantize q) := by
  have hb := truncQ_scale_bounds (neg_one_le_clampQ q) (clampQ_le_one q)
  have h0 : mp3Quantize q = truncQ (clampQ q * 32767) := by
    unfold mp3Quantize
    exact toInt16_eq_self (by linarith [hb.1]) hb.2
  refine ⟨h0, fun h => ?_, fun h => ?_⟩
  · rw [quantizeSample_fin, if_neg (by linarith), h0]
  · rw [h0]
    unfold specQuantize
    rw [if_neg (not_lt.mpr h)]

/-- Witness for the amended claim C4, at the concrete sample 1/3. -/
theorem mp3_quantize_rule_witness :
    mp3Quantize (1/3) = quantizeSample (.fin (1/3)) ∧
      mp3Quantize (1/3) = specQuantize (1/3) := by
  have hc : clampQ (1/3) = 1/3 := by
    unfold clampQ
    rw [min_eq_right (by norm_num), max_eq_right (by norm_num)]
  exact ⟨(mp3_quantize_rule (1/3)).2.1 (by rw [hc]; norm_num),
         (mp3_quantize_rule (1/3)).2.2 (by rw [hc]; norm_num)⟩

/-- Claim C4 counterexample: at the sample -1 the MP3 path writes -32767
(clamp, then scale by 32767, regardless of sign) while the WAV serializer
writes -32768, and the section 4.2 rule the claim cites (negative clamped
values scale by 32768) also demands -32768 — so the MP3 path does not
quantize by the same rule as the WAV serializer. -/
theorem mp3_vs_wav_at_neg_one :
    mp3Quantize (-1) = -32767 ∧ quantizeSample (.fin (-1)) = -32768 ∧
      specQuantize (-1) = -32768 ∧ (-32767 : ℤ) ≠ -32768 := by
  have hc : clampQ (-1) = -1 := by
    unfold clampQ
    rw [min_eq_right (by norm_num), max_self]
  refine ⟨?_, ?_, ?_, by decide⟩
  · unfold mp3Quantize
    rw [hc, show ((-1 : ℚ) * 32767) = ((-32767 : ℤ) : ℚ) by push_cast; ring,
      truncQ_intCast]
    decide
  · rw [quantizeSample_fin, hc, if_pos (by norm_num)]
    rw [show ((-1 : ℚ) * 32768) = ((-32768 : ℤ) : ℚ) by push_cast; ring]
    exact truncQ_intCast _
  · unfold specQuantize
    rw [hc, if_pos (by norm_num)]
    rw [show ((-1 : ℚ) * 32768) = ((-32768 : ℤ) : ℚ) by push_cast; ring]
    exact truncQ_intCast _

theorem quantizeSample_fin_zero : quantizeSample (.fin 0) = 0 := by
  rw [quantizeSample_fin]
  have hc : clampQ 0 = 0 := by
    unfold clampQ
    rw [min_eq_right (by norm_num), max_eq_right (by norm_num)]
  rw [hc, if_neg (by norm_num)]
  rw [show ((0 : ℚ) * 32767) = ((0 : ℤ) : ℚ) by push_cast; ring]
  exact truncQ_intCast _

theorem quantizeSample_inf : quantizeSample .inf = 32767 := by
  have h : quantizeSample .inf =
      if (1 : ℚ)/2 + max (-1) 1 < 0 then truncQ (max (-1) 1 * 32768)
      else truncQ (max (-1) 1 * 32767) := rfl
  rw [h, max_eq_right (by norm_num : (-1 : ℚ) ≤ 1), if_neg (by norm_num)]
  rw [show ((1 : ℚ) * 32767) = ((32767 : ℤ) : ℚ) by push_cast; ring]
  exact truncQ_intCast _

theorem quantizeSample_negInf : quantizeSample .negInf = -32768 := by
  have h : quantizeSample .negInf =
      if (1 : ℚ)/2 + (-1) < 0 then truncQ ((-1) * 32768)
      else truncQ ((-1) * 32767) := rfl
  rw [h, if_pos (by norm_num)]
  rw [show ((-1 : ℚ) * 32768) = ((-32768 : ℤ) : ℚ) by push_cast; ring]
  exact truncQ_intCast _

theorem flatMapRangeLen (f : Nat → List Nat) (k : Nat)
    (h : ∀ i, (f i).length = k) : ∀ n, ((List.range n).flatMap f).length = n * k := by
  intro n
  induction n with
  | zero => simp
  | succ m ih =>
    rw [List.range_succ, List.flatMap_append, List.length_append, ih]
    simp [h, Nat.succ_mul]

/-- Claim C10 (amended): `bufferToWave(buffer, len)` returns exactly
44 + len*channelCount*2 bytes; a read at or past the end of a channel array,
and a stored NaN, are written as the 16-bit value 0 (reading past the end of
a channel never faults and zero-fills); a stored +Infinity however is clamped
to 1 and written as 32767, and a stored -Infinity as -32768. -/
theorem bufferToWave_length_and_oob (b : WaveBuf) (len : Nat) :
    (bufferToWave b len).length = 44 + len * b.channels.length * 2 ∧
    (∀ i off, (b.channels.getD i []).length ≤ off →
        quantizeSample (sampleAt b i off) = 0) ∧
    (∀ i off, (b.channels.getD i []).get? off = some .nan →
        quantizeSample (sampleAt b i off) = 0) ∧
    (∀ i off, (b.channels.getD i []).get? off = some .inf →
        quantizeSample (sampleAt b i off) = 32767) ∧
    (∀ i off, (b.channels.getD i []).get? off = some .negInf →
        quantizeSample (sampleAt b i off) = -32768) := by
  refine ⟨?_, ?_, ?_, ?_, ?_⟩
  · have hdata := flatMapRangeLen
      (fun off => (List.range b.channels.length).flatMap
        (fun i => int16LE (quantizeSample (sampleAt b i off))))
      (b.channels.length * 2)
      (fun off => flatMapRangeLen
        (fun i => int16LE (quantizeSample (sampleAt b i off))) 2
        (fun i => rfl) b.channels.length) len
    unfold bufferToWave
    simp only [List.length_append]
    rw [hdata]
    simp [u32LE, u16LE]
    ring
  · intro i off h
    unfold sampleAt
    rw [List.get?_eq_none.mpr h]
    exact quantizeSample_fin_zero
  · intro i off h
    unfold sampleAt
    rw [h]
    exact quantizeSample_fin_zero
  · intro i off h
    unfold sampleAt
    rw [h]
    exact quantizeSample_inf
  · intro i off h
    unfold sampleAt
    rw [h]
    exact quantizeSample_negInf

/-- Witness for the amended claim C10, on a concrete one-channel buffer
holding NaN, +Infinity and -Infinity. -/
theorem bufferToWave_length_and_oob_witness :
    (bufferToWave ⟨[[JSFloat.nan, JSFloat.inf, JSFloat.negInf]], 8⟩ 2).length = 48 ∧
    quantizeSample (sampleAt ⟨[[JSFloat.nan, JSFloat.inf, JSFloat.negInf]], 8⟩ 0 5) = 0 ∧
    quantizeSample (sampleAt ⟨[[JSFloat.nan, JSFloat.inf, JSFloat.negInf]], 8⟩ 0 0) = 0 ∧
    quantizeSample (sampleAt ⟨[[JSFloat.nan, JSFloat.inf, JSFloat.negInf]], 8⟩ 0 1) = 32767 ∧
    quantizeSample (sampleAt ⟨[[JSFloat.nan, JSFloat.inf, JSFloat.negInf]], 8⟩ 0 2) = -32768 := by
  have h := bufferToWave_length_and_oob ⟨[[JSFloat.nan, JSFloat.inf, JSFloat.negInf]], 8⟩ 2
  exact ⟨h.1, h.2.1 0 5 (by decide), h.2.2.1 0 0 (by decide),
         h.2.2.2.1 0 1 (by decide), h.2.2.2.2 0 2 (by decide)⟩

/-- Claim C10 counterexample: a stored non-finite sample is not always
written as 0 — a channel holding +Infinity has it clamped to 1 and written
as the 16-bit value 32767. -/
theorem bufferToWave_inf_sample_not_zero :
    quantizeSample (sampleAt ⟨[[JSFloat.inf]], 8⟩ 0 0) = 32767 ∧
      (32767 : ℤ) ≠ 0 := by
  have hs : sampleAt ⟨[[JSFloat.inf]], 8⟩ 0 0 = .inf := rfl
  exact ⟨by rw [hs, quantizeSample_inf], by decide⟩

/-- Model of a decoded multichannel PCM buffer as the toolkit and merge
pipelines use it: per-channel sample lists (samples modelled exactly as
rationals — these code paths only meet finite values) and the sample rate. -/
structure PcmBuffer where
  channels : List (List ℚ)
  sampleRate : Nat
deriving DecidableEq, Repr

/-- The buffer's frame count, read off a channel array (the Web Audio
`AudioBuffer` keeps every channel at the same length). -/
def frameCount (b : PcmBuffer) : Nat := (b.channels.headD []).length

/-- The fixed 100 ms padding: `paddingSamples = Math.floor(0.1 * sampleRate)`,
padding of the silence remover. -/
def paddingFrames (rate : Nat) : Nat := (⌊(1 : ℚ)/10 * rate⌋).toNat

/-- The silence-detection scan of `processAudio` (AudioToolkit.tsx lines
85-102) over the remaining samples, carrying the running frame index `i` and
the currently open segment start: a frame with `|x| > thr` opens a segment
when none is open; a frame with `|x| < thr` closes an open segment, pushing
it padded by `pad` on both sides and clipped to the buffer (`Math.max(0, ·)`
is the truncated subtraction, `Math.min(n, ·)` the min with the channel
length `n`).  A segment still open when the samples run out is pushed as
`(start, n)` with no padding at all. -/
def detectAux (thr : ℚ) (pad n : Nat) :
    List ℚ → Nat → Option Nat → List (Nat × Nat)
  | [], _, some s => [(s, n)]
  | [], _, none => []
  | x :: xs, i, none =>
    if thr < |x| then detectAux thr pad n xs (i + 1) (some i)
    else detectAux thr pad n xs (i + 1) none
  | x :: xs, i, some s =>
    if |x| < thr then (s - pad, min n (i + pad)) :: detectAux thr pad n xs (i + 1) none
    else detectAux thr pad n xs (i + 1) (some s)

/-- The padded segment list the silence remover computes over a channel. -/
def detectSegments (data : List ℚ) (thr : ℚ) (pad : Nat) : List (Nat × Nat) :=
  detectAux thr pad data.length data 0 none

/-- Modelled from the spec (section 4.4): the raw, unpadded segment scan —
the list of raw closed segments `(rawStart, rawEnd)` in scan order, together
with the start of a segment still open at end-of-buffer, if any. -/
def rawAux (thr : ℚ) :
    List ℚ → Nat → Option Nat → List (Nat × Nat) × Option Nat
  | [], _, start => ([], start)
  | x :: xs, i, none =>
    if thr < |x| then rawAux thr xs (i + 1) (some i)
    else rawAux thr xs (i + 1) none
  | x :: xs, i, some s =>
    if |x| < thr then
      ((s, i) :: (rawAux thr xs (i + 1) none).1, (rawAux thr xs (i + 1) none).2)
    else rawAux thr xs (i + 1) (some s)

/-- The raw segment scan of a whole channel. -/
def rawScan (data : List ℚ) (thr : ℚ) : List (Nat × Nat) × Option Nat :=
  rawAux thr data 0 none

/-- Padding of one closed raw segment, as the spec states it:
start = max(0, rawStart - pad), end = min(n, rawEnd + pad). -/
def padSeg (pad n : Nat) (p : Nat × Nat) : Nat × Nat :=
  (p.1 - pad, min n (p.2 + pad))

/-- The contribution of a segment still open at end-of-buffer. -/
def openTail (n : Nat) : Option Nat → List (Nat × Nat)
  | none => []
  | some s => [(s, n)]

theorem detectAux_eq_raw (thr : ℚ) (pad n : Nat) :
    ∀ (l : List ℚ) (i : Nat) (start : Option Nat),
      detectAux thr pad n l i start =
        ((rawAux thr l i start).1.map (padSeg pad n)) ++
          openTail n (rawAux thr l i start).2 := by
  intro l
  induction l with
  | nil =>
    intro i start
    cases start <;> simp [detectAux, rawAux, openTail, padSeg]
  | cons x xs ih =>
    intro i start
    cases start with
    | none =>
      by_cases h : thr < |x|
      · simp [detectAux, rawAux, h, ih]
      · simp [detectAux, rawAux, h, ih]
    | some s =>
      by_cases h : |x| < thr
      · simp [detectAux, rawAux, h, ih, padSeg]
      · simp [detectAux, rawAux, h, ih]

/-- Claim C3 (amended): every segment the silence detector closes before
end-of-buffer is padded on both sides — start = max(0, rawStart - pad),
end = min(frameCount, rawEnd + pad), pad = floor(0.1 * sampleRate) — but a
segment still open at end-of-buffer is emitted entirely unpadded as
(rawStart, frameCount): the code pushes `{start: segmentStart, end: length}`
there, omitting the leading pad as well, not only the trailing one. -/
theorem detectSegments_padding (data : List ℚ) (thr : ℚ) (pad : Nat) :
    detectSegments data thr pad =
      ((rawScan data thr).1.map (padSeg pad data.length)) ++
        openTail data.length (rawScan data thr).2 :=
  detectAux_eq_raw thr pad data.length data 0 none

/-- Claim C3 counterexample: over the 3-frame channel [0, 1, 1] with linear
threshold 1/2 and paddingFrames 1 (sample rate 10), the sound run opens at
rawStart = 1 and is still open at end-of-buffer; the claim demands
start = max(0, 1 - 1) = 0, but the detector emits (1, 3): the leading pad is
omitted for a segment that closes at end-of-buffer. -/
theorem detect_open_segment_unpadded :
    paddingFrames 10 = 1 ∧
      detectSegments [0, 1, 1] (1/2) (paddingFrames 10) = [(1, 3)] ∧
      detectSegments [0, 1, 1] (1/2) (paddingFrames 10) ≠ [(0, 3)] := by
  have hp : paddingFrames 10 = 1 := by
    unfold paddingFrames
    rw [show (1 : ℚ)/10 * (10 : Nat) = ((1 : ℤ) : ℚ) by push_cast; norm_num]
    rw [Int.floor_intCast]
    rfl
  have hd : detectSegments [0, 1, 1] (1/2) 1 = [(1, 3)] := by
    norm_num [detectSegments, detectAux]
  exact ⟨hp, by rw [hp]; exact hd, by rw [hp, hd]; decide⟩

/-- The fold of the segment-merging loop of `processAudio` (AudioToolkit.tsx
lines 105-114): `cur` is the segment currently being extended; a following
segment whose start is before `cur`'s end extends `cur`'s end to the max of
the two ends, otherwise `cur` is emitted and that segment becomes current. -/
def mergeAux (cur : Nat × Nat) : List (Nat × Nat) → List (Nat × Nat)
  | [] => [cur]
  | s :: rest =>
    if s.1 < cur.2 then mergeAux (cur.1, max cur.2 s.2) rest
    else cur :: mergeAux s rest

/-- The merge of overlapping segments over a segment list (an empty list stays empty; the
code only runs the loop on a non-empty list). -/
def mergeOverlapping : List (Nat × Nat) → List (Nat × Nat)
  | [] => []
  | s :: rest => mergeAux s rest

/-- Adjacent segments do not overlap: each ends no later than the next
starts. -/
def chainSegs : List (Nat × Nat) → Prop
  | [] => True
  | [_] => True
  | a :: b :: t => a.2 ≤ b.1 ∧ chainSegs (b :: t)

theorem mergeAux_shape :
    ∀ (l : List (Nat × Nat)) (cur : Nat × Nat),
      ∃ e t, mergeAux cur l = (cur.1, e) :: t := by
  intro l
  induction l with
  | nil => intro cur; exact ⟨cur.2, [], rfl⟩
  | cons s rest ih =>
    intro cur
    by_cases h : s.1 < cur.2
    · obtain ⟨e, t, ht⟩ := ih (cur.1, max cur.2 s.2)
      exact ⟨e, t, by simp only [mergeAux]; rw [if_pos h]; exact ht⟩
    · refine ⟨cur.2, mergeAux s rest, ?_⟩
      simp only [mergeAux]
      rw [if_neg h, Prod.mk.eta]

theorem mergeAux_chain :
    ∀ (l : List (Nat × Nat)) (cur : Nat × Nat), chainSegs (mergeAux cur l) := by
  intro l
  induction l with
  | nil => intro cur; trivial
  | cons s rest ih =>
    intro cur
    by_cases h : s.1 < cur.2
    · simp only [mergeAux]
      rw [if_pos h]
      exact ih _
    · simp only [mergeAux]
      rw [if_neg h]
      obtain ⟨e, t, ht⟩ := mergeAux_shape rest s
      rw [ht]
      show cur.2 ≤ s.1 ∧ chainSegs ((s.1, e) :: t)
      refine ⟨by omega, ?_⟩
      have hc := ih s
      rwa [ht] at hc

theorem mergeAux_of_chain :
    ∀ (l : List (Nat × Nat)) (cur : Nat × Nat),
      chainSegs (cur :: l) → mergeAux cur l = cur :: l := by
  intro l
  induction l with
  | nil => intro cur _; rfl
  | cons s rest ih =>
    intro cur hc
    have hc2 : cur.2 ≤ s.1 ∧ chainSegs (s :: rest) := hc
    simp only [mergeAux]
    rw [if_neg (by omega), ih s hc2.2]

/-- Claim C8: `mergeOverlapping` is idempotent — merging the merged segment
list again changes nothing, for any segment list: the fold's output is
always a chain of non-overlapping segments in emission order, and on such a
chain the fold acts as the identity. -/
theorem mergeOverlapping_idem (l : List (Nat × Nat)) :
    mergeOverlapping (mergeOverlapping l) = mergeOverlapping l := by
  cases l with
  | nil => rfl
  | cons s rest =>
    show mergeOverlapping (mergeAux s rest) = mergeAux s rest
    obtain ⟨e, t, ht⟩ := mergeAux_shape rest s
    have hc := mergeAux_chain rest s
    rw [ht] at hc ⊢
    show mergeAux (s.1, e) t = (s.1, e) :: t
    exact mergeAux_of_chain t (s.1, e) hc

/-- A channel slice `originalChannel.subarray(start, end)` (indices clamp to
the array, as `subarray` clamps). -/
def sliceChannel (ch : List ℚ) (s e : Nat) : List ℚ := (ch.drop s).take (e - s)

/-- The fresh all-zero 1-frame buffer
`audioContext.createBuffer(numberOfChannels, 1, sampleRate)` — the
degenerate output of the silence remover. -/
def oneFrameSilence (numChannels rate : Nat) : PcmBuffer :=
  ⟨List.replicate numChannels [0], rate⟩

/-- The silence-removal stage of `processAudio` (AudioToolkit.tsx lines
78-134): detect segments on channel 0 with the 100 ms padding, merge
overlapping segments, and either copy the merged segments' frames in order
into a fresh buffer (per channel), or fall back to the 1-frame silent buffer
when there are no segments or they cover zero total frames.  Copying a
segment appends the per-channel slice; the `AudioBuffer` invariant (every
channel has the buffer's length) makes the slice lengths line up with the
advancing write offset of the code. -/
def removeSilence (b : PcmBuffer) (thr : ℚ) : PcmBuffer :=
  match detectSegments (b.channels.getD 0 []) thr (paddingFrames b.sampleRate) with
  | [] => oneFrameSilence b.channels.length b.sampleRate
  | s :: rest =>
    if 0 < ((mergeAux s rest).map (fun p => p.2 - p.1)).sum then
      ⟨b.channels.map
          (fun ch => ((mergeAux s rest).map (fun p => sliceChannel ch p.1 p.2)).flatten),
        b.sampleRate⟩
    else oneFrameSilence b.channels.length b.sampleRate

theorem detectAux_all_zero (thr : ℚ) (pad n : Nat) (h : 0 < thr) :
    ∀ (l : List ℚ) (i : Nat), (∀ x ∈ l, x = 0) →
      detectAux thr pad n l i none = [] := by
  intro l
  induction l with
  | nil => intro i _; rfl
  | cons x xs ih =>
    intro i hz
    have hx : x = 0 := hz x (by simp)
    have hc : ¬ thr < |x| := by
      rw [hx, abs_zero]
      exact not_lt.mpr (le_of_lt h)
    simp only [detectAux]
    rw [if_neg hc]
    exact ih (i + 1) (fun y hy => hz y (by simp [hy]))

/-- Claim C6: silence removal on an all-zero buffer, for any positive linear
threshold (every threshold of at least -90 dB has linear amplitude
10^(dB/20) > 0), yields the 1-frame all-zero buffer with the input's channel
count and sample rate — never a zero-length buffer; and the same 1-frame
fallback fires whenever the merged detected segments cover zero total
frames. -/
theorem removeSilence_degenerate (b : PcmBuffer) (thr : ℚ) :
    (0 < thr → (∀ ch ∈ b.channels, ∀ x ∈ ch, x = 0) →
      removeSilence b thr = oneFrameSilence b.channels.length b.sampleRate) ∧
    (((mergeOverlapping (detectSegments (b.channels.getD 0 []) thr
        (paddingFrames b.sampleRate))).map (fun p => p.2 - p.1)).sum = 0 →
      removeSilence b thr = oneFrameSilence b.channels.length b.sampleRate) ∧
    (1 ≤ b.channels.length →
      frameCount (oneFrameSilence b.channels.length b.sampleRate) = 1) ∧
    (∀ ch ∈ (oneFrameSilence b.channels.length b.sampleRate).channels,
      ∀ x ∈ ch, x = (0 : ℚ)) ∧
    (oneFrameSilence b.channels.length b.sampleRate).channels.length =
      b.channels.length ∧
    (oneFrameSilence b.channels.length b.sampleRate).sampleRate = b.sampleRate := by
  refine ⟨?_, ?_, ?_, ?_, ?_, rfl⟩
  · intro h hz
    have hdata : ∀ x ∈ b.channels.getD 0 [], x = 0 := by
      cases hch : b.channels with
      | nil => simp
      | cons c t =>
        intro x hx
        exact hz c (by rw [hch]; simp) x hx
    have hdet : detectSegments (b.channels.getD 0 []) thr
        (paddingFrames b.sampleRate) = [] :=
      detectAux_all_zero thr (paddingFrames b.sampleRate) _ h _ 0 hdata
    unfold removeSilence
    rw [hdet]
  · intro hsum
    unfold removeSilence
    cases hdet : detectSegments (b.channels.getD 0 []) thr
        (paddingFrames b.sampleRate) with
    | nil => rfl
    | cons s rest =>
      rw [hdet] at hsum
      simp only [mergeOverlapping] at hsum
      show (if 0 < ((mergeAux s rest).map (fun p => p.2 - p.1)).sum then
          (⟨b.channels.map
              (fun ch => ((mergeAux s rest).map
                (fun p => sliceChannel ch p.1 p.2)).flatten),
            b.sampleRate⟩ : PcmBuffer)
        else oneFrameSilence b.channels.length b.sampleRate) =
        oneFrameSilence b.channels.length b.sampleRate
      rw [if_neg (by omega)]
  · intro hc
    cases hn : b.channels.length with
    | zero => omega
    | succ m =>
      unfold oneFrameSilence frameCount
      simp [List.replicate_succ]
  · intro ch hch x hx
    have : ch = [0] := List.eq_of_mem_replicate hch
    rw [this] at hx
    simpa using hx
  · simp [oneFrameSilence]

/-- Witness for claim C6: a 1-channel all-zero 2-frame buffer at rate 10 and
linear threshold 1 collapses to the 1-frame silent buffer. -/
theorem removeSilence_degenerate_witness :
    removeSilence ⟨[[0, 0]], 10⟩ 1 = oneFrameSilence 1 10 ∧
      frameCount (oneFrameSilence 1 10) = 1 := by
  have h := removeSilence_degenerate ⟨[[0, 0]], 10⟩ 1
  exact ⟨h.1 (by norm_num) (by intro ch hch x hx; simp at hch; subst hch; simpa using hx),
         h.2.2.1 (by simp)⟩

/-- The peak scan of the normalize stage (AudioToolkit.tsx lines 138-144):
the running maximum of |sample| over every channel and frame, starting
at 0. -/
def peakB (b : PcmBuffer) : ℚ :=
  b.channels.foldl (fun m ch => ch.foldl (fun m x => max m |x|) m) 0

/-- One gain application: every sample multiplied by `g`.  Modelled from the
spec (section 4.6): the code routes the buffer through a GainNode in an
OfflineAudioContext, whose rendering multiplies each sample by the gain. -/
def scaleB (g : ℚ) (b : PcmBuffer) : PcmBuffer :=
  ⟨b.channels.map (fun ch => ch.map (fun x => x * g)), b.sampleRate⟩

/-- The normalize stage (AudioToolkit.tsx lines 137-158): if `0 < peak < 1`,
apply gain `1/peak`; otherwise return the buffer unchanged (never attenuate,
avoid dividing by zero). -/
def normalize (b : PcmBuffer) : PcmBuffer :=
  if 0 < peakB b ∧ peakB b < 1 then scaleB (1 / peakB b) b else b

theorem foldl_absmax_scale (g : ℚ) (hg : 0 ≤ g) :
    ∀ (ch : List ℚ) (m : ℚ),
      (ch.map (fun x => x * g)).foldl (fun m x => max m |x|) (m * g) =
        (ch.foldl (fun m x => max m |x|) m) * g := by
  intro ch
  induction ch with
  | nil => intro m; rfl
  | cons x xs ih =>
    intro m
    simp only [List.map_cons, List.foldl_cons]
    rw [show max (m * g) |x * g| = (max m |x|) * g by
      rw [abs_mul, abs_of_nonneg hg]
      exact (max_mul_of_nonneg m |x| hg).symm]
    exact ih (max m |x|)

theorem peakB_scaleB (g : ℚ) (hg : 0 ≤ g) (b : PcmBuffer) :
    peakB (scaleB g b) = peakB b * g := by
  have key : ∀ (chs : List (List ℚ)) (m : ℚ),
      (chs.map (fun ch => ch.map (fun x => x * g))).foldl
          (fun m ch => ch.foldl (fun m x => max m |x|) m) (m * g) =
        (chs.foldl (fun m ch => ch.foldl (fun m x => max m |x|) m) m) * g := by
    intro chs
    induction chs with
    | nil => intro m; rfl
    | cons c t ih =>
      intro m
      simp only [List.map_cons, List.foldl_cons]
      rw [foldl_absmax_scale g hg c m]
      exact ih _
  unfold peakB scaleB
  calc (b.channels.map (fun ch => ch.map (fun x => x * g))).foldl
        (fun m ch => ch.foldl (fun m x => max m |x|) m) 0
      = (b.channels.map (fun ch => ch.map (fun x => x * g))).foldl
        (fun m ch => ch.foldl (fun m x => max m |x|) m) (0 * g) := by rw [zero_mul]
    _ = (b.channels.foldl (fun m ch => ch.foldl (fun m x => max m |x|) m) 0) * g :=
        key b.channels 0

/-- Claim C7: normalize returns its input unchanged whenever the peak over
all channels and frames is 0 or at least 1, and is idempotent on buffers
with 0 < peak < 1: one pass multiplies every sample by 1/peak, making the
new peak exactly 1, so a second pass changes nothing. -/
theorem normalize_fixed_point (b : PcmBuffer) :
    ((peakB b = 0 ∨ 1 ≤ peakB b) → normalize b = b) ∧
    (0 < peakB b → peakB b < 1 → normalize (normalize b) = normalize b) := by
  constructor
  · intro h
    unfold normalize
    rw [if_neg]
    rintro ⟨h1, h2⟩
    rcases h with h | h
    · rw [h] at h1
      exact lt_irrefl 0 h1
    · exact absurd h2 (not_lt.mpr h)
  · intro h1 h2
    have hn : normalize b = scaleB (1 / peakB b) b := by
      unfold normalize
      rw [if_pos ⟨h1, h2⟩]
    have hp : peakB (normalize b) = 1 := by
      rw [hn, peakB_scaleB (1 / peakB b) (by positivity) b]
      field_simp
    have hstep : normalize (normalize b) =
        if 0 < peakB (normalize b) ∧ peakB (normalize b) < 1 then
          scaleB (1 / peakB (normalize b)) (normalize b)
        else normalize b := rfl
    rw [hstep, if_neg]
    rintro ⟨_, hlt⟩
    rw [hp] at hlt
    exact lt_irrefl 1 hlt

/-- Witness for claim C7: a buffer of peak 1/2 is a fixed point of a second
normalize pass, and a buffer of peak 2 is returned unchanged. -/
theorem normalize_fixed_point_witness :
    normalize (normalize ⟨[[1/2]], 10⟩) = normalize ⟨[[1/2]], 10⟩ ∧
      normalize ⟨[[2]], 10⟩ = ⟨[[2]], 10⟩ := by
  have hp1 : peakB ⟨[[1/2]], 10⟩ = 1/2 := by
    have h : peakB ⟨[[1/2]], 10⟩ = max 0 |(1/2 : ℚ)| := rfl
    rw [h, abs_of_nonneg (by norm_num), max_eq_right (by norm_num)]
  have hp2 : peakB ⟨[[2]], 10⟩ = 2 := by
    have h : peakB ⟨[[2]], 10⟩ = max 0 |(2 : ℚ)| := rfl
    rw [h, abs_of_nonneg (by norm_num), max_eq_right (by norm_num)]
  exact ⟨(normalize_fixed_point _).2 (by rw [hp1]; norm_num) (by rw [hp1]; norm_num),
         (normalize_fixed_point _).1 (Or.inr (by rw [hp2]; norm_num))⟩

/-- Modelled from the spec (section 4.7): the sample produced at output
index `i` of the speed-change rendering — the code delegates to an
OfflineAudioContext playing the source at `playbackRate = k`, i.e. reading
position i*k with interpolation between the two nearest input samples. -/
def resampleAt (ch : List ℚ) (k : ℚ) (i : Nat) : ℚ :=
  ch.getD (⌊(i : ℚ) * k⌋).toNat 0 * (1 - ((i : ℚ) * k - ((⌊(i : ℚ) * k⌋).toNat : ℚ))) +
    ch.getD ((⌊(i : ℚ) * k⌋).toNat + 1) 0 * ((i : ℚ) * k - ((⌊(i : ℚ) * k⌋).toNat : ℚ))

/-- The speed-change pass of `handleApplyAndDownload` (AudioToolkit.tsx
lines 170-181): the processed buffer is rendered into an OfflineAudioContext
created with `Math.ceil(length / playbackSpeed)` frames and the processed
buffer's sample rate. -/
def changeSpeed (b : PcmBuffer) (k : ℚ) : PcmBuffer :=
  ⟨b.channels.map (fun ch =>
      (List.range (⌈(frameCount b : ℚ) / k⌉).toNat).map (resampleAt ch k)),
    b.sampleRate⟩

/-- Claim C9: for every buffer and every speed factor k > 0 (the UI slider
stays within [0.5, 3.0]), the speed-changed output has
frameCount = ceil(inputFrameCount / k), and its sample rate equals the
input's. -/
theorem changeSpeed_frame_count (b : PcmBuffer) (k : ℚ) (hk : 0 < k)
    (hc : 1 ≤ b.channels.length) :
    (frameCount (changeSpeed b k) : ℤ) = ⌈(frameCount b : ℚ) / k⌉ ∧
      (changeSpeed b k).sampleRate = b.sampleRate := by
  constructor
  · cases hch : b.channels with
    | nil => rw [hch] at hc; exact absurd hc (by simp)
    | cons c t =>
      have hfc : frameCount (changeSpeed b k) = (⌈(frameCount b : ℚ) / k⌉).toNat := by
        unfold changeSpeed frameCount
        rw [hch]
        simp
      rw [hfc]
      have hnn : 0 ≤ ⌈(frameCount b : ℚ) / k⌉ := Int.ceil_nonneg (by positivity)
      omega
  · rfl

/-- Witness for claim C9: a 3-frame one-channel buffer at speed 2 has
ceil(3/2) = 2 output frames and keeps its sample rate. -/
theorem changeSpeed_frame_count_witness :
    (frameCount (changeSpeed ⟨[[0, 0, 0]], 10⟩ 2) : ℤ) = 2 ∧
      (changeSpeed ⟨[[0, 0, 0]], 10⟩ 2).sampleRate = 10 := by
  have h := changeSpeed_frame_count ⟨[[0, 0, 0]], 10⟩ 2 (by norm_num) (by decide)
  refine ⟨?_, h.2⟩
  rw [h.1, show frameCount ⟨[[0, 0, 0]], 10⟩ = 3 from rfl]
  refine Int.ceil_eq_iff.mpr ?_
  constructor <;> push_cast <;> norm_num

/-- Format compatibility as `Merger.handleMerge` checks it: equal channel
count and equal sample rate with the first buffer. -/
def fmtOk (b0 b : PcmBuffer) : Prop :=
  b.channels.length = b0.channels.length ∧ b.sampleRate = b0.sampleRate

instance fmtOkDecidable (b0 b : PcmBuffer) : Decidable (fmtOk b0 b) :=
  inferInstanceAs (Decidable (_ ∧ _))

/-- The validation loop of `Merger.handleMerge` (Loader/Merger component,
lines 111-117): scan the buffers after the first, returning the index (into
the full file list, so starting at 1) of the first buffer whose channel
count or sample rate differs from the first buffer's. -/
def firstMismatch (b0 : PcmBuffer) : List PcmBuffer → Nat → Option Nat
  | [], _ => none
  | b :: bs, i => if fmtOk b0 b then firstMismatch b0 bs (i + 1) else some i

/-- The concatenation `Merger.handleMerge` builds after validation: output
channel c is the buffers' channel-c data laid end to end in order (every
channel has its buffer's length, so the advancing write offsets of the code
place the arrays back to back); channel count and sample rate come from the
first buffer. -/
def concatBuffers (b0 : PcmBuffer) (rest : List PcmBuffer) : PcmBuffer :=
  ⟨(List.range b0.channels.length).map
      (fun c => ((b0 :: rest).map (fun b => b.channels.getD c [])).flatten),
    b0.sampleRate⟩

/-- The Merger entry point `Merger.handleMerge` (lines 108-128): validate every buffer against the
first; on the first mismatch show the format error naming that file and
return with no merged output; otherwise produce the concatenation. -/
def handleMerge (b0 : PcmBuffer) (rest : List PcmBuffer) : Except Nat PcmBuffer :=
  match firstMismatch b0 rest 1 with
  | some i => .error i
  | none => .ok (concatBuffers b0 rest)

/-- The clip-list entry point `handleMergeSelected` (ClipList.tsx lines 168-200): no format check at
all — the output buffer is created with the first buffer's channel count and
sample rate, and each buffer writes its own channels at the advancing
offset (channels a buffer does not have stay zero-filled over its stretch).
A buffer with more channels than the first makes
`newBuffer.getChannelData(channel)` throw, which the surrounding catch turns
into an error with no output — the `.error` case here. -/
def mergeSelected (b0 : PcmBuffer) (rest : List PcmBuffer) : Except Unit PcmBuffer :=
  if ∀ b ∈ b0 :: rest, b.channels.length ≤ b0.channels.length then
    .ok ⟨(List.range b0.channels.length).map
        (fun c => ((b0 :: rest).map
          (fun b => if c < b.channels.length then b.channels.getD c []
                    else List.replicate (frameCount b) 0)).flatten),
      b0.sampleRate⟩
  else .error ()

theorem firstMismatch_none_iff (b0 : PcmBuffer) :
    ∀ (l : List PcmBuffer) (k : Nat),
      (firstMismatch b0 l k = none ↔ ∀ b ∈ l, fmtOk b0 b) := by
  intro l
  induction l with
  | nil => intro k; simp [firstMismatch]
  | cons b bs ih =>
    intro k
    by_cases h : fmtOk b0 b
    · simp only [firstMismatch, if_pos h]
      rw [ih (k + 1)]
      simp [h]
    · simp only [firstMismatch, if_neg h]
      constructor
      · intro hs
        exact absurd hs (by simp)
      · intro hall
        exact absurd (hall b (by simp)) h

theorem firstMismatch_some (b0 : PcmBuffer) :
    ∀ (l : List PcmBuffer) (k i : Nat), firstMismatch b0 l k = some i →
      k ≤ i ∧ ∃ b, l.get? (i - k) = some b ∧ ¬ fmtOk b0 b ∧
        ∀ j b2, j < i - k → l.get? j = some b2 → fmtOk b0 b2 := by
  intro l
  induction l with
  | nil =>
    intro k i h
    exact absurd h (by simp [firstMismatch])
  | cons b bs ih =>
    intro k i h
    by_cases hf : fmtOk b0 b
    · simp only [firstMismatch, if_pos hf] at h
      obtain ⟨hk, b2, hb2, hnf, hprev⟩ := ih (k + 1) i h
      refine ⟨by omega, b2, ?_, hnf, ?_⟩
      · rw [show i - k = (i - (k + 1)) + 1 by omega]
        simpa using hb2
      · intro j bj hj hg
        cases j with
        | zero =>
          have : b = bj := by simpa using hg
          rw [← this]
          exact hf
        | succ m =>
          exact hprev m bj (by omega) (by simpa using hg)
    · simp only [firstMismatch, if_neg hf] at h
      have hk : k = i := by injection h
      subst hk
      refine ⟨le_refl k, b, ?_, hf, ?_⟩
      · rw [show k - k = 0 by omega]
        rfl
      · intro j bj hj _
        omega

/-- Claim C5 (amended): the Merger entry point does require all buffers to
share channel count and sample rate — it produces the concatenation exactly
when every buffer is compatible with the first, and otherwise fails naming
the first incompatible buffer with no merged output; the clip-list
merge-selected entry point, however, performs no format validation: whenever
no buffer has more channels than the first (the only way it can throw) it
produces a merged buffer regardless of sample rates, and on format-matching
inputs it produces the same concatenation the Merger does. -/
theorem merge_entry_points (b0 : PcmBuffer) (rest : List PcmBuffer) :
    (handleMerge b0 rest = .ok (concatBuffers b0 rest) ↔ ∀ b ∈ rest, fmtOk b0 b) ∧
    (∀ i, handleMerge b0 rest = .error i →
      1 ≤ i ∧ ∃ b, rest.get? (i - 1) = some b ∧ ¬ fmtOk b0 b ∧
        ∀ j b2, j < i - 1 → rest.get? j = some b2 → fmtOk b0 b2) ∧
    ((∀ b ∈ rest, b.channels.length ≤ b0.channels.length) →
      ∃ m, mergeSelected b0 rest = .ok m) ∧
    ((∀ b ∈ rest, fmtOk b0 b) →
      mergeSelected b0 rest = .ok (concatBuffers b0 rest)) := by
  have hmem : ∀ b ∈ rest, fmtOk b0 b → b.channels.length = b0.channels.length :=
    fun b _ hf => hf.1
  refine ⟨?_, ?_, ?_, ?_⟩
  · unfold handleMerge
    cases hm : firstMismatch b0 rest 1 with
    | none =>
      simp only []
      exact iff_of_true trivial ((firstMismatch_none_iff b0 rest 1).mp hm)
    | some i =>
      simp only []
      refine iff_of_false (by simp) (fun hall => ?_)
      rw [(firstMismatch_none_iff b0 rest 1).mpr hall] at hm
      cases hm
  · intro i h
    unfold handleMerge at h
    cases hm : firstMismatch b0 rest 1 with
    | none =>
      rw [hm] at h
      cases h
    | some i2 =>
      rw [hm] at h
      have hi : i2 = i := by injection h
      subst hi
      exact firstMismatch_some b0 rest 1 i2 hm
  · intro hall
    have hcond : ∀ b ∈ b0 :: rest, b.channels.length ≤ b0.channels.length := by
      intro b hb
      rcases List.mem_cons.mp hb with hb | hb
      · rw [hb]
      · exact hall b hb
    unfold mergeSelected
    rw [if_pos hcond]
    exact ⟨_, rfl⟩
  · intro hall
    have hcond : ∀ b ∈ b0 :: rest, b.channels.length ≤ b0.channels.length := by
      intro b hb
      rcases List.mem_cons.mp hb with hb | hb
      · rw [hb]
      · exact le_of_eq (hall b hb).1
    unfold mergeSelected concatBuffers
    rw [if_pos hcond]
    simp only [Except.ok.injEq, PcmBuffer.mk.injEq, and_true]
    apply List.map_congr_left
    intro c hc
    have hclt : c < b0.channels.length := List.mem_range.mp hc
    congr 1
    apply List.map_congr_left
    intro b hb
    have hlen : b.channels.length = b0.channels.length := by
      rcases List.mem_cons.mp hb with hb | hb
      · rw [hb]
      · exact (hall b hb).1
    rw [if_pos (by omega)]

/-- Witness for the amended claim C5: two compatible one-channel buffers at
rate 8000 are concatenated by both entry points, and a rate-mismatched pair
makes the Merger fail naming index 1. -/
theorem merge_entry_points_witness :
    handleMerge ⟨[[0]], 8000⟩ [⟨[[1]], 8000⟩] =
        .ok (concatBuffers ⟨[[0]], 8000⟩ [⟨[[1]], 8000⟩]) ∧
      mergeSelected ⟨[[0]], 8000⟩ [⟨[[1]], 8000⟩] =
        .ok (concatBuffers ⟨[[0]], 8000⟩ [⟨[[1]], 8000⟩]) ∧
      1 ≤ 1 ∧ ∃ b, [(⟨[[0]], 9000⟩ : PcmBuffer)].get? (1 - 1) = some b ∧
        ¬ fmtOk ⟨[[0]], 8000⟩ b ∧
        ∀ j b2, j < 1 - 1 →
          [(⟨[[0]], 9000⟩ : PcmBuffer)].get? j = some b2 → fmtOk ⟨[[0]], 8000⟩ b2 := by
  have hall : ∀ b ∈ [(⟨[[1]], 8000⟩ : PcmBuffer)], fmtOk ⟨[[0]], 8000⟩ b := by
    intro b hb
    rw [show b = ⟨[[1]], 8000⟩ by simpa using hb]
    exact ⟨rfl, rfl⟩
  refine ⟨(merge_entry_points ⟨[[0]], 8000⟩ [⟨[[1]], 8000⟩]).1.mpr hall,
          (merge_entry_points ⟨[[0]], 8000⟩ [⟨[[1]], 8000⟩]).2.2.2 hall,
          (merge_entry_points ⟨[[0]], 8000⟩ [⟨[[0]], 9000⟩]).2.1 1 rfl⟩

/-- Claim C5 counterexample: the clip-list merge entry point does not fail
on a format mismatch — two one-channel buffers with different sample rates
(8000 and 44100) are merged into an output buffer (no error), carrying the
first buffer's sample rate. -/
theorem mergeSelected_no_validation :
    mergeSelected ⟨[[0]], 8000⟩ [⟨[[1/2]], 44100⟩] = .ok ⟨[[0, 1/2]], 8000⟩ ∧
      ¬ fmtOk ⟨[[0]], 8000⟩ ⟨[[1/2]], 44100⟩ := by
  constructor
  · rfl
  · rintro ⟨_, hr⟩
    exact absurd hr (by decide)

end WaqasStudio
